import Mathlib

/-!
Shallow embedding of the Cogno-MVP retrieval-augmented answer pipeline
(src/src/utils/chunk.ts together with the configuration module
src/config/advanced-rag.config.ts, given as src/unnamed/part_001).

JavaScript strings are modelled as Lean strings (lists of characters),
JavaScript numbers used for scores, thresholds and temperatures as exact
rationals, and counts and sizes as naturals.  Every call to the external
text-generation service is represented by one step of an oracle
environment, and the number of generation calls made by a run is tracked
explicitly so that call-count properties can be stated.
-/

namespace Cogno

/-! ### JavaScript character classes and string helpers -/

/-- Character class of the JavaScript regular-expression class back-slash-s
(whitespace), as defined by ECMAScript: tab through carriage return, space,
no-break space, ogham space mark, the general punctuation spaces, line and
paragraph separators, narrow no-break space, medium mathematical space,
ideographic space and the byte-order mark. -/
def isJsSpace (c : Char) : Bool :=
  (9 ≤ c.toNat && c.toNat ≤ 13) || c.toNat == 32 || c.toNat == 160 ||
  c.toNat == 0x1680 || (0x2000 ≤ c.toNat && c.toNat ≤ 0x200A) ||
  c.toNat == 0x2028 || c.toNat == 0x2029 || c.toNat == 0x202F ||
  c.toNat == 0x205F || c.toNat == 0x3000 || c.toNat == 0xFEFF

/-- Character class of the chunker normalisation step that removes control
characters: U+0000 through U+001F together with U+007F. -/
def isJsControl (c : Char) : Bool :=
  c.toNat ≤ 0x1F || c.toNat == 0x7F

/-- ECMAScript line terminators, the positions at which a multiline dollar
anchor matches: line feed, carriage return, line separator, paragraph
separator. -/
def isLineTerm (c : Char) : Bool :=
  c.toNat == 10 || c.toNat == 13 || c.toNat == 0x2028 || c.toNat == 0x2029

/-- JavaScript String.prototype.trim on a character list: drop whitespace
from both ends. -/
def trimChars (l : List Char) : List Char :=
  ((l.dropWhile isJsSpace).reverse.dropWhile isJsSpace).reverse

/-- JavaScript String.prototype.trim. -/
def jsTrim (s : String) : String :=
  String.mk (trimChars s.data)

/-- Core of JavaScript String.prototype.split on the regular expression of
one or more whitespace characters.  The Boolean records whether we are
currently inside a separator run (in which case the accumulator is empty);
a separator run at either end of the string contributes an empty token,
exactly as in JavaScript. -/
def splitWsCore : Bool → List Char → List Char → List String
  | _, [], acc => [String.mk acc.reverse]
  | false, c :: rest, acc =>
    if isJsSpace c then String.mk acc.reverse :: splitWsCore true rest []
    else splitWsCore false rest (c :: acc)
  | true, c :: rest, _ =>
    if isJsSpace c then splitWsCore true rest []
    else splitWsCore false rest [c]

/-- JavaScript s.split(re) for the regular expression of one or more
whitespace characters; on the empty string this yields the one-element
list holding the empty string. -/
def splitWs (s : String) : List String :=
  splitWsCore false s.data []

/-- Core of JavaScript String.prototype.split on the literal separator
consisting of a single line feed. -/
def splitNlCore : List Char → List Char → List String
  | [], acc => [String.mk acc.reverse]
  | c :: rest, acc =>
    if c = '\n' then String.mk acc.reverse :: splitNlCore rest []
    else splitNlCore rest (c :: acc)

/-- JavaScript s.split of a string on a single line feed. -/
def splitNl (s : String) : List String :=
  splitNlCore s.data []

/-- Replace each carriage-return line-feed pair by a single line feed
(the chunker normalisation step for Windows line endings). -/
def replaceCrLf : List Char → List Char
  | [] => []
  | [c] => [c]
  | c :: d :: rest =>
    if c = '\r' ∧ d = '\n' then '\n' :: replaceCrLf rest
    else c :: replaceCrLf (d :: rest)

/-- Replace each tab by a single space. -/
def tabsToSpaces (l : List Char) : List Char :=
  l.map fun c => if c = '\t' then ' ' else c

/-- Replace each maximal run of control characters by a single space.  The
Boolean records whether the previous character belonged to a control run. -/
def collapseControlCore : Bool → List Char → List Char
  | _, [] => []
  | inRun, c :: rest =>
    if isJsControl c then
      (if inRun then [] else [' ']) ++ collapseControlCore true rest
    else c :: collapseControlCore false rest

/-- Replace each maximal run of control characters by a single space. -/
def collapseControl (l : List Char) : List Char :=
  collapseControlCore false l

/-- True when the list starts with a line terminator. -/
def startsWithTerm : List Char → Bool
  | [] => false
  | c :: _ => isLineTerm c

/-- Remove the whitespace runs that end at a multiline dollar anchor, in
other words trailing whitespace of each line and of the whole string: a
whitespace character is dropped exactly when everything after it up to the
next surviving character is dropped as well and that next character, if
any, is a line terminator. -/
def stripTrailingWs : List Char → List Char
  | [] => []
  | c :: rest =>
    let rest' := stripTrailingWs rest
    if isJsSpace c && (rest'.isEmpty || startsWithTerm rest') then rest'
    else c :: rest'

/-- The full normalisation pipeline of chunkText: collapse Windows line
endings, turn tabs into spaces, collapse runs of control characters into
single spaces, strip per-line trailing whitespace and finally trim. -/
def normalizeChars (l : List Char) : List Char :=
  trimChars (stripTrailingWs (collapseControl (tabsToSpaces (replaceCrLf l))))

/-- The normalised text computed at the top of chunkText. -/
def normalizeStr (s : String) : String :=
  String.mk (normalizeChars s.data)

/-- JavaScript Array.prototype.join with a single-space separator. -/
def joinWords : List String → String
  | [] => ""
  | [w] => w
  | w :: ws => w ++ " " ++ joinWords ws

/-- Sum of word length plus one over a word list; this is the value the
chunker keeps in its currentLength accumulator for the current chunk. -/
def sumLen (ws : List String) : ℕ :=
  ws.foldr (fun w acc => w.length + 1 + acc) 0

/-- JavaScript Array.prototype.slice with the negated argument, as in
current.slice(-n): for positive n the last n elements (all of them when
the array is shorter), while slice of negative zero is the whole array. -/
def jsSliceLast (l : List String) (n : ℕ) : List String :=
  if n = 0 then l else l.drop (l.length - n)

/-! ### Chunker -/

/-- The word-packing loop of chunkText.  Arguments: the remaining words,
the words of the chunk under construction, the currentLength accumulator
and the chunks emitted so far. -/
def chunkLoop (chunkSize chunkOverlap : ℕ) :
    List String → List String → ℕ → List String → List String
  | [], current, _, chunks =>
    if current.length ≠ 0 then chunks ++ [joinWords current] else chunks
  | word :: ws, current, currentLength, chunks =>
    let len := word.length + 1
    if currentLength + len > chunkSize ∧ current.length > 0 then
      let chunks' := chunks ++ [joinWords current]
      if chunkOverlap > 0 then
        let overlapWords := chunkOverlap / 6
        let current' := jsSliceLast current overlapWords
        chunkLoop chunkSize chunkOverlap ws (current' ++ [word])
          (sumLen current' + len) chunks'
      else
        chunkLoop chunkSize chunkOverlap ws [word] len chunks'
    else
      chunkLoop chunkSize chunkOverlap ws (current ++ [word])
        (currentLength + len) chunks

/-- chunkText from src/src/utils/chunk.ts: normalise the text, split it
into whitespace-delimited words and pack the words greedily into chunks of
at most chunkSize characters, seeding each new chunk with the last
floor(chunkOverlap / 6) words of the previous one when an overlap is
requested. -/
def chunkText (text : String) (chunkSize : ℕ := 1200) (chunkOverlap : ℕ := 200) :
    List String :=
  let normalized := normalizeStr text
  let words := splitWs normalized
  chunkLoop chunkSize chunkOverlap words [] 0 []

/-! ### Configuration (src/config/advanced-rag.config.ts, src/unnamed/part_001) -/

/-- Query expansion settings. -/
structure QueryExpansionConfig where
  enabled : Bool
  numExpandedQueries : ℕ
  temperature : ℚ
deriving DecidableEq

/-- Self-critique settings. -/
structure SelfCritiqueConfig where
  enabled : Bool
  threshold : ℚ
  maxImprovementAttempts : ℕ
deriving DecidableEq

/-- Reranking settings. -/
structure RerankingConfig where
  enabled : Bool
  topN : ℕ
  usePineconeReranking : Bool
deriving DecidableEq

/-- Hybrid search settings. -/
structure HybridSearchConfig where
  enabled : Bool
  vectorWeight : ℚ
  keywordWeight : ℚ
  reciprocalRankFusion : Bool
deriving DecidableEq

/-- Response synthesis settings. -/
structure SynthesisConfig where
  maxContextDocuments : ℕ
  temperature : ℚ
  includeCitations : Bool
deriving DecidableEq

/-- Performance settings. -/
structure PerformanceConfig where
  timeoutMs : ℕ
  maxRetries : ℕ
  cacheEnabled : Bool
deriving DecidableEq

/-- The advanced RAG configuration bundle. -/
structure AdvancedRAGConfig where
  queryExpansion : QueryExpansionConfig
  selfCritique : SelfCritiqueConfig
  reranking : RerankingConfig
  hybridSearch : HybridSearchConfig
  synthesis : SynthesisConfig
  performance : PerformanceConfig
deriving DecidableEq

/-- defaultAdvancedRAGConfig from the configuration module. -/
def defaultAdvancedRAGConfig : AdvancedRAGConfig where
  queryExpansion := { enabled := true, numExpandedQueries := 3, temperature := 3/10 }
  selfCritique := { enabled := true, threshold := 7/10, maxImprovementAttempts := 2 }
  reranking := { enabled := true, topN := 10, usePineconeReranking := true }
  hybridSearch := { enabled := true, vectorWeight := 7/10, keywordWeight := 3/10,
                    reciprocalRankFusion := true }
  synthesis := { maxContextDocuments := 8, temperature := 2/10, includeCitations := true }
  performance := { timeoutMs := 30000, maxRetries := 3, cacheEnabled := false }

/-! ### Data model of the pipeline -/

/-- A value of the unstructured critique details mapping. -/
inductive JVal where
  | str (s : String)
  | num (q : ℚ)
deriving DecidableEq

/-- The critique details object: an unstructured mapping from dimension
names to values. -/
abbrev Details := List (String × JVal)

/-- Result type of critiqueResponse. -/
structure CritiqueResult where
  score : ℚ
  details : Details
deriving DecidableEq

/-- A reranked document: passage text with its relevance score. -/
structure RerankedDoc where
  text : String
  relevanceScore : ℚ
deriving DecidableEq

/-- One element of the externally supplied vector-search result list; only
the optional chunk text field of its fields object is consumed by the
pipeline. -/
structure VectorSearchResult where
  chunkText : Option String
deriving DecidableEq

/-- The terminal artifact of advancedRAGQuery. -/
structure AdvancedRAGResult where
  query : String
  expandedQueries : List String
  documents : List String
  rerankedDocuments : List RerankedDoc
  finalAnswer : String
  critiqueScore : ℚ
  confidence : ℚ
deriving DecidableEq

/-- One request to the external text-generation service, identified by the
call site and the semantically relevant data embedded into its prompt. -/
inductive GenCall where
  | expansion (originalQuery : String) (numQueries : ℕ)
  | critique (query : String) (response : String) (context : Option (List String))
  | synthesis (query : String) (selectedDocs : List String)
deriving DecidableEq

/-- The outcome the critique code extracts from a successfully parsed JSON
response: the optional score field and the optional details field (absent
fields model JSON values on which the JavaScript field access is falsy). -/
structure CritiqueJson where
  score : Option ℚ
  details : Option Details
deriving DecidableEq

/-- Oracle environment for one pipeline run: gen maps the index of the
generation call (a call counter, so a stub may answer differently on each
call) and the request to either a failure or a response text, and parse
models JSON.parse on a critique response, returning none when the text is
not parseable JSON. -/
structure GenEnv where
  gen : ℕ → GenCall → Except String String
  parse : String → Option CritiqueJson

/-! ### Pipeline functions (src/src/utils/chunk.ts) -/

/-- generateExpandedQueries: when query expansion is disabled return the
singleton of the original query; otherwise issue one generation call,
split the trimmed response on line feeds, trim each line, drop the empty
lines, keep at most numQueries of them and prepend the original query.
A generation failure propagates.  The second component of a success is
the updated generation-call counter. -/
def generateExpandedQueries (env : GenEnv) (cfg : AdvancedRAGConfig)
    (originalQuery : String) (numQueries : ℕ := 3) (calls : ℕ := 0) :
    Except String (List String × ℕ) :=
  if cfg.queryExpansion.enabled = false then
    .ok ([originalQuery], calls)
  else
    match env.gen calls (.expansion originalQuery numQueries) with
    | .error e => .error e
    | .ok content =>
      let response := jsTrim content
      let queries :=
        (((splitNl response).map jsTrim).filter (fun q => q.length > 0)).take numQueries
      .ok (originalQuery :: queries, calls + 1)

/-- The fixed neutral fallback of critiqueResponse. -/
def critiqueFallback : CritiqueResult :=
  { score := 1/2, details := [("error", JVal.str "Failed to parse critique")] }

/-- critiqueResponse: issue one generation call and parse its response as
JSON; on any failure (generation or parse) return the fixed neutral
fallback instead of propagating.  A missing score field is read as zero
and missing details as the empty object.  The second component is the
updated generation-call counter. -/
def critiqueResponse (env : GenEnv) (query : String) (response : String)
    (context : Option (List String)) (calls : ℕ) : CritiqueResult × ℕ :=
  match env.gen calls (.critique query response context) with
  | .error _ => (critiqueFallback, calls + 1)
  | .ok responseText =>
    match env.parse (jsTrim responseText) with
    | none => (critiqueFallback, calls + 1)
    | some parsed =>
      ({ score := parsed.score.getD 0, details := parsed.details.getD [] }, calls + 1)

/-- The indexed map underlying both branches of rerankDocuments:
documents.map((doc, index) => (text: doc, relevanceScore: 1.0 - index * 0.1)). -/
def rerankScores : ℕ → List String → List RerankedDoc
  | _, [] => []
  | i, doc :: docs =>
    { text := doc, relevanceScore := 1 - (i : ℚ) * (1/10) } :: rerankScores (i + 1) docs

/-- rerankDocuments: whether or not reranking is enabled, annotate the
documents, in input order, with the positional score one minus a tenth of
the index; no generation call is made and topN is not consulted. -/
def rerankDocuments (cfg : AdvancedRAGConfig) (query : String)
    (documents : List String) (topN : ℕ := 5) : List RerankedDoc :=
  if cfg.reranking.enabled = false then
    rerankScores 0 documents
  else
    rerankScores 0 documents

/-- synthesizeAnswer: select the first min(length, maxContextDocuments)
documents, issue one generation call built from them and return the
trimmed answer; a failure propagates.  The critiqueScore argument is
accepted but never used, exactly as in the source.  The second component
is the updated generation-call counter. -/
def synthesizeAnswer (env : GenEnv) (cfg : AdvancedRAGConfig) (query : String)
    (documents : List String) (critiqueScore : ℚ) (calls : ℕ) :
    Except String (String × ℕ) :=
  let contextLimit := min documents.length cfg.synthesis.maxContextDocuments
  let selectedDocs := documents.take contextLimit
  match env.gen calls (.synthesis query selectedDocs) with
  | .error e => .error e
  | .ok content => .ok (jsTrim content, calls + 1)

/-- Document-text extraction of advancedRAGQuery step three: read the
optional chunk text of every vector-search result, defaulting to the
empty string, and keep the truthy (non-empty) ones. -/
def extractDocs (vectorSearchResults : List VectorSearchResult) : List String :=
  (vectorSearchResults.map (fun r => r.chunkText.getD "")).filter (fun d => d ≠ "")

/-- The fixed terminal answer of the empty-retrieval branch. -/
def insufficientAnswer : String :=
  "I don\x27t have enough information in my knowledge base to answer this question accurately."

/-- Mutable state of the improvement loop of advancedRAGQuery: the
improvementAttempts counter, bestAnswer, bestScore, the outer confidence
variable and the generation-call counter. -/
structure LoopState where
  attempts : ℕ
  bestAnswer : String
  bestScore : ℚ
  confidence : ℚ
  calls : ℕ
deriving DecidableEq

/-- The improvement while-loop of advancedRAGQuery.  The fuel argument is
the number of loop-guard checks remaining, so the loop as a whole is run
with fuel equal to maxImprovementAttempts; each iteration increments the
attempt counter, filters the reranked documents to those whose relevance
score exceeds seven tenths, and, when that set is non-empty, synthesizes a
candidate answer and critiques it, adopting the candidate answer and
writing its score into confidence when the candidate score exceeds
bestScore; the loop breaks once bestScore reaches the threshold.
A synthesis failure propagates. -/
def improveLoop (env : GenEnv) (cfg : AdvancedRAGConfig) (query : String)
    (rerankedDocuments : List RerankedDoc) :
    ℕ → LoopState → Except String LoopState
  | 0, st => .ok st
  | fuel + 1, st =>
    let st₁ : LoopState := { st with attempts := st.attempts + 1 }
    let topDocuments :=
      (rerankedDocuments.filter (fun d => d.relevanceScore > 7/10)).map
        (fun d => d.text)
    let afterBody : Except String LoopState :=
      if topDocuments.length > 0 then
        match synthesizeAnswer env cfg query topDocuments st₁.bestScore st₁.calls with
        | .error e => .error e
        | .ok (improvedAnswer, calls₁) =>
          let (improvedCritique, calls₂) :=
            critiqueResponse env query improvedAnswer (some topDocuments) calls₁
          if improvedCritique.score > st₁.bestScore then
            .ok { st₁ with bestAnswer := improvedAnswer,
                           confidence := improvedCritique.score, calls := calls₂ }
          else
            .ok { st₁ with calls := calls₂ }
      else
        .ok st₁
    match afterBody with
    | .error e => .error e
    | .ok st₂ =>
      if st₂.bestScore ≥ cfg.selfCritique.threshold then .ok st₂
      else improveLoop env cfg query rerankedDocuments fuel st₂

/-- Observable trace of one advancedRAGQuery run: the returned result, the
total number of generation calls made and the final value of the
improvementAttempts counter (zero when the improvement branch is never
entered). -/
structure RunTrace where
  result : AdvancedRAGResult
  genCalls : ℕ
  attempts : ℕ
deriving DecidableEq

/-- advancedRAGQuery: expand the query, extract the candidate passage
texts, short-circuit to the fixed insufficient-information result when no
text survives, otherwise rerank, synthesize an initial answer, critique
it, and, when the critique score is below the threshold, run the bounded
improvement loop; the returned critiqueScore is the initial critique
score, and when the improvement branch was entered both finalAnswer and
confidence are taken from the loop state (confidence from its bestScore
field, by the final assignment of the source). -/
def advancedRAGQuery (env : GenEnv) (cfg : AdvancedRAGConfig) (query : String)
    (vectorSearchResults : List VectorSearchResult) (topK : ℕ := 5) :
    Except String RunTrace :=
  match generateExpandedQueries env cfg query cfg.queryExpansion.numExpandedQueries 0 with
  | .error e => .error e
  | .ok (expandedQueries, calls₀) =>
    let documents := extractDocs vectorSearchResults
    if documents.length = 0 then
      .ok { result := { query := query, expandedQueries := [query], documents := [],
                        rerankedDocuments := [], finalAnswer := insufficientAnswer,
                        critiqueScore := 0, confidence := 0 },
            genCalls := calls₀, attempts := 0 }
    else
      let rerankedDocuments := rerankDocuments cfg query documents topK
      match synthesizeAnswer env cfg query (rerankedDocuments.map (fun d => d.text))
          1 calls₀ with
      | .error e => .error e
      | .ok (initialAnswer, calls₁) =>
        let (critique, calls₂) :=
          critiqueResponse env query initialAnswer
            (some (rerankedDocuments.map (fun d => d.text))) calls₁
        if critique.score < cfg.selfCritique.threshold then
          let st₀ : LoopState :=
            { attempts := 0, bestAnswer := initialAnswer, bestScore := critique.score,
              confidence := critique.score, calls := calls₂ }
          match improveLoop env cfg query rerankedDocuments
              cfg.selfCritique.maxImprovementAttempts st₀ with
          | .error e => .error e
          | .ok st =>
            .ok { result := { query := query, expandedQueries := expandedQueries,
                              documents := documents,
                              rerankedDocuments := rerankedDocuments,
                              finalAnswer := st.bestAnswer,
                              critiqueScore := critique.score,
                              confidence := st.bestScore },
                  genCalls := st.calls, attempts := st.attempts }
        else
          .ok { result := { query := query, expandedQueries := expandedQueries,
                            documents := documents,
                            rerankedDocuments := rerankedDocuments,
                            finalAnswer := initialAnswer,
                            critiqueScore := critique.score,
                            confidence := critique.score },
                genCalls := calls₂, attempts := 0 }

/-! ### Concrete configurations and oracle environments used to evaluate
the pipeline at specific inputs -/

/-- Configuration with query expansion disabled, critique threshold seven
tenths and a single improvement attempt. -/
def cfgStale : AdvancedRAGConfig :=
  { defaultAdvancedRAGConfig with
    queryExpansion := { enabled := false, numExpandedQueries := 3, temperature := 3/10 },
    selfCritique := { enabled := true, threshold := 7/10, maxImprovementAttempts := 1 } }

/-- Oracle for the stale-confidence run: the initial answer is critiqued
at one half and the improvement attempt at nine tenths. -/
def envStale : GenEnv where
  gen := fun calls _ =>
    .ok (match calls with
      | 0 => "ansA"
      | 1 => "CRIT1"
      | 2 => "ansB"
      | _ => "CRIT2")
  parse := fun s =>
    if s = "CRIT1" then some { score := some (1/2), details := some [] }
    else if s = "CRIT2" then some { score := some (9/10), details := some [] }
    else none

/-- Oracle whose generation always succeeds with three expansion lines and
whose critique responses never parse. -/
def envEmpty : GenEnv where
  gen := fun _ _ => .ok "e1\ne2\ne3"
  parse := fun _ => none

/-- Oracle acting as a critique stub: every critique response parses to
the score one half, below the default threshold. -/
def envStub : GenEnv where
  gen := fun _ call =>
    .ok (match call with
      | .expansion _ _ => "e1\ne2\ne3"
      | _ => "x")
  parse := fun _ => some { score := some (1/2), details := some [] }

/-- Oracle whose generation succeeds with text that is not parseable
JSON. -/
def envBad : GenEnv where
  gen := fun _ _ => .ok "not json"
  parse := fun _ => none

/-- Configuration with reranking disabled. -/
def cfgRerankOff : AdvancedRAGConfig :=
  { defaultAdvancedRAGConfig with
    reranking := { enabled := false, topN := 10, usePineconeReranking := true } }

/-- Twelve candidate passages, enough to drive the positional score below
zero. -/
def docsTwelve : List String :=
  ["d0", "d1", "d2", "d3", "d4", "d5", "d6", "d7", "d8", "d9", "d10", "d11"]

/-- The trace of the empty-retrieval run with query expansion disabled. -/
def emptyTraceOff : RunTrace :=
  { result := { query := "q", expandedQueries := ["q"], documents := [],
                rerankedDocuments := [], finalAnswer := insufficientAnswer,
                critiqueScore := 0, confidence := 0 },
    genCalls := 0, attempts := 0 }

/-- The trace of the critique-stub run on one passage with the default
configuration. -/
def stubTrace : RunTrace :=
  { result := { query := "q", expandedQueries := ["q", "e1", "e2", "e3"],
                documents := ["D"],
                rerankedDocuments := [{ text := "D", relevanceScore := 1 }],
                finalAnswer := "x", critiqueScore := 1/2, confidence := 1/2 },
    genCalls := 7, attempts := 2 }

/-- Specification-side reranking: one entry per input document, in input
order, text unchanged, relevance score one minus a tenth of the zero-based
index.  Written independently of the implementation for the refinement
comparison. -/
def rerankSpec (documents : List String) : List RerankedDoc :=
  (List.range documents.length).zipWith
    (fun (i : ℕ) (d : String) => { text := d, relevanceScore := 1 - (i : ℚ) * (1/10) })
    documents

/-! ## Lemmas -/

/-- The length of the annotated list equals the length of the input. -/
theorem rerankScores_length : ∀ (ds : List String) (k : ℕ),
    (rerankScores k ds).length = ds.length
  | [], _ => rfl
  | _ :: ds, k => by
    simpa [rerankScores] using rerankScores_length ds (k + 1)

/-- Entry lookup in the annotated list. -/
theorem rerankScores_getElem? : ∀ (ds : List String) (k i : ℕ),
    (rerankScores k ds)[i]? =
      (ds[i]?).map (fun d => { text := d, relevanceScore := 1 - ((k + i : ℕ) : ℚ) * (1/10) })
  | [], _, _ => by simp [rerankScores]
  | d :: ds, k, 0 => by simp [rerankScores]
  | d :: ds, k, i + 1 => by
    have h := rerankScores_getElem? ds (k + 1) i
    simp only [rerankScores, List.getElem?_cons_succ, h]
    have : k + 1 + i = k + (i + 1) := by omega
    rw [this]

/-- Both branches of rerankDocuments compute the same annotated list. -/
theorem rerankDocuments_eq_scores (cfg : AdvancedRAGConfig) (query : String)
    (documents : List String) (topN : ℕ) :
    rerankDocuments cfg query documents topN = rerankScores 0 documents := by
  unfold rerankDocuments
  split <;> rfl

/-- The implementation-side annotated list agrees with the
specification-side one. -/
theorem rerankScores_eq_spec (ds : List String) :
    rerankScores 0 ds = rerankSpec ds := by
  apply List.ext_getElem?
  intro i
  rw [rerankScores_getElem?]
  unfold rerankSpec
  rw [List.getElem?_zipWith']
  by_cases hi : i < ds.length
  · rw [List.getElem?_range hi, List.getElem?_eq_getElem hi]
    simp
  · rw [List.getElem?_eq_none (by omega), List.getElem?_eq_none (by simpa using hi)]
    simp

/-- A successful expansion consumes one generation call when enabled and
none when disabled. -/
theorem generateExpandedQueries_calls (env : GenEnv) (cfg : AdvancedRAGConfig)
    (q : String) (n calls : ℕ) (l : List String) (c : ℕ)
    (h : generateExpandedQueries env cfg q n calls = .ok (l, c)) :
    c = calls + (if cfg.queryExpansion.enabled then 1 else 0) := by
  unfold generateExpandedQueries at h
  by_cases he : cfg.queryExpansion.enabled = false
  · rw [if_pos he] at h
    injection h with h'
    have hc : calls = c := congrArg Prod.snd h'
    simp [he, ← hc]
  · rw [if_neg he] at h
    cases hg : env.gen calls (.expansion q n) with
    | error e => rw [hg] at h; cases h
    | ok t =>
      rw [hg] at h
      injection h with h'
      have hc : c = calls + 1 := congrArg Prod.snd h' |>.symm
      have he' : cfg.queryExpansion.enabled = true := by
        cases hb : cfg.queryExpansion.enabled
        · exact absurd hb he
        · rfl
      rw [he', if_pos rfl, hc]

/-- A successful synthesis consumes exactly one generation call. -/
theorem synthesizeAnswer_calls (env : GenEnv) (cfg : AdvancedRAGConfig)
    (query : String) (docs : List String) (score : ℚ) (calls : ℕ) (a : String) (c : ℕ)
    (h : synthesizeAnswer env cfg query docs score calls = .ok (a, c)) :
    c = calls + 1 := by
  unfold synthesizeAnswer at h
  dsimp only at h
  cases hg : env.gen calls (.synthesis query
      (docs.take (min docs.length cfg.synthesis.maxContextDocuments))) with
  | error e => rw [hg] at h; cases h
  | ok t =>
    rw [hg] at h
    injection h with h'
    exact (congrArg Prod.snd h').symm

/-- A critique consumes exactly one generation call, whatever happens. -/
theorem critiqueResponse_calls (env : GenEnv) (query response : String)
    (context : Option (List String)) (calls : ℕ) :
    (critiqueResponse env query response context calls).2 = calls + 1 := by
  unfold critiqueResponse
  cases env.gen calls (.critique query response context) with
  | error e => rfl
  | ok t =>
    dsimp only
    cases env.parse (jsTrim t) <;> rfl

/-- On a non-empty document list the high-confidence filter of the
improvement loop keeps at least the first document, whose positional
score is one. -/
theorem rerank_filter_texts_ne_nil (docs : List String) (h : docs ≠ []) :
    ((rerankScores 0 docs).filter (fun d => d.relevanceScore > 7/10)).map
      (fun d => d.text) ≠ [] := by
  cases docs with
  | nil => exact absurd rfl h
  | cons d ds =>
    have hgt : (({ text := d, relevanceScore := 1 - ((0 : ℕ) : ℚ) * (1/10) } :
        RerankedDoc).relevanceScore > 7/10) := by norm_num
    rw [rerankScores, List.filter_cons, if_pos (by simpa using hgt), List.map_cons]
    simp

/-- Running the improvement loop under a critique stub that always scores
below the threshold performs exactly fuel iterations, two generation
calls each, and never changes bestScore. -/
theorem improveLoop_stub (env : GenEnv) (cfg : AdvancedRAGConfig) (query : String)
    (rd : List RerankedDoc)
    (htop : ((rd.filter (fun d => d.relevanceScore > 7/10)).map (fun d => d.text)) ≠ [])
    (hstub : ∀ (q r : String) (ctx : Option (List String)) (calls : ℕ),
      (critiqueResponse env q r ctx calls).1.score < cfg.selfCritique.threshold) :
    ∀ (fuel : ℕ) (st st' : LoopState), st.bestScore < cfg.selfCritique.threshold →
      improveLoop env cfg query rd fuel st = .ok st' →
      st'.attempts = st.attempts + fuel ∧ st'.calls = st.calls + 2 * fuel ∧
      st'.bestScore = st.bestScore := by
  intro fuel
  induction fuel with
  | zero =>
    intro st st' _ h
    injection h with h'
    rw [← h']
    exact ⟨rfl, by omega, rfl⟩
  | succ fuel ih =>
    intro st st' hlt h
    rw [improveLoop] at h
    dsimp only at h
    rw [if_pos (List.length_pos.mpr htop)] at h
    cases hs : synthesizeAnswer env cfg query
        ((rd.filter (fun d => d.relevanceScore > 7/10)).map (fun d => d.text))
        st.bestScore st.calls with
    | error e => rw [hs] at h; cases h
    | ok p =>
      obtain ⟨a, c₁⟩ := p
      rw [hs] at h
      dsimp only at h
      rcases hcr : critiqueResponse env query a
          (some ((rd.filter (fun d => d.relevanceScore > 7/10)).map (fun d => d.text)))
          c₁ with ⟨cr, c₂⟩
      rw [hcr] at h
      dsimp only at h
      have hc₁ : c₁ = st.calls + 1 :=
        synthesizeAnswer_calls env cfg query _ st.bestScore st.calls a c₁ hs
      have hc₂ : c₂ = c₁ + 1 := by
        have := critiqueResponse_calls env query a
          (some ((rd.filter (fun d => d.relevanceScore > 7/10)).map (fun d => d.text))) c₁
        rw [hcr] at this
        exact this
      by_cases hgt : cr.score > st.bestScore
      · rw [if_pos hgt] at h
        dsimp only at h
        rw [if_neg (not_le.mpr hlt)] at h
        obtain ⟨h₁, h₂, h₃⟩ :=
          ih ⟨st.attempts + 1, a, st.bestScore, cr.score, c₂⟩ st' hlt h
        dsimp only at h₁ h₂ h₃
        exact ⟨by omega, by omega, h₃⟩
      · rw [if_neg hgt] at h
        dsimp only at h
        rw [if_neg (not_le.mpr hlt)] at h
        obtain ⟨h₁, h₂, h₃⟩ :=
          ih ⟨st.attempts + 1, st.bestAnswer, st.bestScore, st.confidence, c₂⟩ st' hlt h
        dsimp only at h₁ h₂ h₃
        exact ⟨by omega, by omega, h₃⟩

/-- sumLen is additive over append. -/
theorem sumLen_append : ∀ xs ys : List String, sumLen (xs ++ ys) = sumLen xs + sumLen ys
  | [], ys => (Nat.zero_add _).symm
  | x :: xs, ys => by
    show x.length + 1 + sumLen (xs ++ ys) = x.length + 1 + sumLen xs + sumLen ys
    rw [sumLen_append xs ys]
    omega

/-- The length of the space-joined word list is one less than sumLen. -/
theorem joinWords_length : ∀ ws : List String, ws ≠ [] →
    (joinWords ws).length + 1 = sumLen ws
  | [], h => absurd rfl h
  | [w], _ => by
    show w.length + 1 = w.length + 1 + 0
    omega
  | w :: x :: ws, _ => by
    have ih := joinWords_length (x :: ws) (by simp)
    show (w ++ " " ++ joinWords (x :: ws)).length + 1 = w.length + 1 + sumLen (x :: ws)
    rw [String.length_append, String.length_append]
    have hsp : (" " : String).length = 1 := rfl
    omega

/-- Invariant of the packing loop run with zero overlap: every chunk it
ever emits either fits within the chunk size or is one single word drawn
from the master word list ws₀. -/
theorem chunkLoop_zero_overlap_bound (cs : ℕ) (ws₀ : List String) (ws : List String) :
    ∀ (current : List String) (cl : ℕ) (chunks : List String),
      (∀ c ∈ chunks, c.length ≤ cs ∨ c ∈ ws₀) →
      (∀ w ∈ ws, w ∈ ws₀) →
      (∀ w ∈ current, w ∈ ws₀) →
      ((∃ w, current = [w]) ∨ sumLen current ≤ cs) →
      cl = sumLen current →
      ∀ c ∈ chunkLoop cs 0 ws current cl chunks, c.length ≤ cs ∨ c ∈ ws₀ := by
  induction ws with
  | nil =>
    intro current cl chunks hch _ hcur hinv _
    rw [chunkLoop]
    by_cases hne : current.length ≠ 0
    · rw [if_pos hne]
      intro c hc
      rcases List.mem_append.mp hc with hc | hc
      · exact hch c hc
      · have hc' : c = joinWords current := by simpa using hc
        subst hc'
        rcases hinv with ⟨w, hw⟩ | hle
        · rw [hw]
          exact .inr (hcur w (hw ▸ List.mem_singleton_self w))
        · left
          have hne' : current ≠ [] := by
            intro hx
            rw [hx] at hne
            exact hne rfl
          have hj := joinWords_length current hne'
          omega
    · rw [if_neg hne]
      exact hch
  | cons w ws ih =>
    intro current cl chunks hch hws hcur hinv hcl
    rw [chunkLoop]
    dsimp only
    by_cases hflush : cl + (w.length + 1) > cs ∧ current.length > 0
    · rw [if_pos hflush, if_neg (by omega : ¬ ((0 : ℕ) > 0))]
      refine ih [w] (w.length + 1) (chunks ++ [joinWords current]) ?_ ?_ ?_ ?_ ?_
      · intro c hc
        rcases List.mem_append.mp hc with hc | hc
        · exact hch c hc
        · have hc' : c = joinWords current := by simpa using hc
          subst hc'
          rcases hinv with ⟨v, hv⟩ | hle
          · rw [hv]
            exact .inr (hcur v (hv ▸ List.mem_singleton_self v))
          · left
            have hne' : current ≠ [] := by
              intro hx
              rw [hx] at hflush
              simp at hflush
            have hj := joinWords_length current hne'
            omega
      · intro v hv
        exact hws v (List.mem_cons_of_mem w hv)
      · intro v hv
        have hv' : v = w := by simpa using hv
        rw [hv']
        exact hws w (List.mem_cons_self w ws)
      · exact .inl ⟨w, rfl⟩
      · show w.length + 1 = w.length + 1 + 0
        omega
    · rw [if_neg hflush]
      refine ih (current ++ [w]) (cl + (w.length + 1)) chunks hch ?_ ?_ ?_ ?_
      · intro v hv
        exact hws v (List.mem_cons_of_mem w hv)
      · intro v hv
        rcases List.mem_append.mp hv with hv | hv
        · exact hcur v hv
        · have hv' : v = w := by simpa using hv
          rw [hv']
          exact hws w (List.mem_cons_self w ws)
      · by_cases hcur0 : current = []
        · rw [hcur0]
          exact .inl ⟨w, rfl⟩
        · right
          have hlen : current.length > 0 := List.length_pos.mpr hcur0
          have hle : ¬ cl + (w.length + 1) > cs := fun hgt => hflush ⟨hgt, hlen⟩
          rw [sumLen_append]
          have hw1 : sumLen [w] = w.length + 1 + 0 := rfl
          omega
      · rw [sumLen_append]
        have hw1 : sumLen [w] = w.length + 1 + 0 := rfl
        omega

/-- Step equation of the whitespace splitter outside a separator run. -/
theorem splitWsCore_false_cons (c : Char) (l acc : List Char) :
    splitWsCore false (c :: l) acc =
      if isJsSpace c then String.mk acc.reverse :: splitWsCore true l []
      else splitWsCore false l (c :: acc) := rfl

/-- Step equation of the whitespace splitter inside a separator run. -/
theorem splitWsCore_true_cons (c : Char) (l acc : List Char) :
    splitWsCore true (c :: l) acc =
      if isJsSpace c then splitWsCore true l []
      else splitWsCore false l [c] := rfl

/-- Consuming a run of non-whitespace characters just extends the
accumulator. -/
theorem splitWsCore_word_prefix : ∀ (wc : List Char),
    (∀ c ∈ wc, isJsSpace c = false) → ∀ (rest acc : List Char),
    splitWsCore false (wc ++ rest) acc = splitWsCore false rest (wc.reverse ++ acc)
  | [], _, rest, acc => by simp
  | c :: wc, h, rest, acc => by
    rw [List.cons_append, splitWsCore_false_cons,
      if_neg (by simp [h c (List.mem_cons_self c wc)]),
      splitWsCore_word_prefix wc (fun d hd => h d (List.mem_cons_of_mem c hd)) rest
        (c :: acc)]
    simp

/-- On input starting with a non-whitespace character the two splitter
modes agree when the accumulator is empty. -/
theorem splitWsCore_true_head_word (c : Char) (l : List Char)
    (h : isJsSpace c = false) :
    splitWsCore true (c :: l) [] = splitWsCore false (c :: l) [] := by
  rw [splitWsCore_true_cons, splitWsCore_false_cons, if_neg (by simp [h]),
    if_neg (by simp [h])]

/-- Data of the space-join of a list with at least two words. -/
theorem joinWords_data_cons (w x : String) (ws : List String) :
    (joinWords (w :: x :: ws)).data = w.data ++ (' ' :: (joinWords (x :: ws)).data) := by
  show (w ++ " " ++ joinWords (x :: ws)).data = _
  rw [String.data_append, String.data_append, List.append_assoc]
  rfl

/-- The space-join of a word list headed by a non-empty word starts with
that word's first character. -/
theorem joinWords_head? (w : String) (ws : List String) (c : Char) (cs : List Char)
    (h : w.data = c :: cs) : ∃ rest, (joinWords (w :: ws)).data = c :: rest := by
  cases ws with
  | nil => exact ⟨cs, h⟩
  | cons x ws' =>
    rw [joinWords_data_cons, h]
    exact ⟨cs ++ (' ' :: (joinWords (x :: ws')).data), rfl⟩

/-- Every character of a space-join is a space or a character of one of
the words. -/
theorem mem_joinWords_data : ∀ (ws : List String) (c : Char),
    c ∈ (joinWords ws).data → c = ' ' ∨ ∃ w ∈ ws, c ∈ w.data
  | [], c, hc => by
    have hnil : (joinWords []).data = [] := rfl
    rw [hnil] at hc
    cases hc
  | [w], c, hc => .inr ⟨w, List.mem_singleton_self w, hc⟩
  | w :: x :: ws, c, hc => by
    rw [joinWords_data_cons] at hc
    rcases List.mem_append.mp hc with hc | hc
    · exact .inr ⟨w, List.mem_cons_self w _, hc⟩
    · rcases List.mem_cons.mp hc with hc | hc
      · exact .inl hc
      · rcases mem_joinWords_data (x :: ws) c hc with h | ⟨v, hv, hcv⟩
        · exact .inl h
        · exact .inr ⟨v, List.mem_cons_of_mem w hv, hcv⟩

/-- The last character of a space-join of non-empty whitespace-free words
is not whitespace. -/
theorem joinWords_getLast_not_space : ∀ (ws : List String),
    (∀ w ∈ ws, w.data ≠ [] ∧ ∀ c ∈ w.data, isJsSpace c = false) →
    ∀ c, (joinWords ws).data.getLast? = some c → isJsSpace c = false
  | [], _, c, hc => by
    have hnil : (joinWords []).data = [] := rfl
    rw [hnil] at hc
    cases hc
  | [w], h, c, hc => by
    have h' := h w (List.mem_singleton_self w)
    exact h'.2 c (List.mem_of_mem_getLast? hc)
  | w :: x :: ws, h, c, hc => by
    have hx := h x (List.mem_cons_of_mem w (List.mem_cons_self x ws))
    obtain ⟨cx, csx, hxd⟩ : ∃ cx csx, x.data = cx :: csx := by
      cases hxx : x.data with
      | nil => exact absurd hxx hx.1
      | cons a b => exact ⟨a, b, rfl⟩
    obtain ⟨rest, hrest⟩ := joinWords_head? x ws cx csx hxd
    rw [joinWords_data_cons, List.getLast?_append, hrest,
      List.getLast?_cons_cons, List.getLast?_cons] at hc
    have hlast : (joinWords (x :: ws)).data.getLast? = some c := by
      rw [hrest, List.getLast?_cons]
      exact hc
    exact joinWords_getLast_not_space (x :: ws)
      (fun v hv => h v (List.mem_cons_of_mem w hv)) c hlast

/-- Splitting the space-join of non-empty whitespace-free words on
whitespace recovers exactly the word list. -/
theorem splitWs_joinWords : ∀ ws : List String, ws ≠ [] →
    (∀ w ∈ ws, w.data ≠ [] ∧ ∀ c ∈ w.data, isJsSpace c = false) →
    splitWs (joinWords ws) = ws
  | [], h, _ => absurd rfl h
  | [w], _, h => by
    have h' := h w (List.mem_singleton_self w)
    have h2 : splitWsCore false w.data [] = [String.mk w.data] := by
      have h3 := splitWsCore_word_prefix w.data h'.2 [] []
      simp only [List.append_nil] at h3
      rw [h3]
      show [String.mk w.data.reverse.reverse] = [String.mk w.data]
      rw [List.reverse_reverse]
    exact h2
  | w :: x :: ws, _, h => by
    have hw := h w (List.mem_cons_self w _)
    have hx := h x (List.mem_cons_of_mem w (List.mem_cons_self x ws))
    have ih := splitWs_joinWords (x :: ws) (by simp)
      (fun v hv => h v (List.mem_cons_of_mem w hv))
    show splitWsCore false (joinWords (w :: x :: ws)).data [] = w :: x :: ws
    rw [joinWords_data_cons,
      splitWsCore_word_prefix w.data hw.2 (' ' :: (joinWords (x :: ws)).data) [],
      splitWsCore_false_cons, if_pos (by decide)]
    obtain ⟨cx, csx, hxd⟩ : ∃ cx csx, x.data = cx :: csx := by
      cases hxx : x.data with
      | nil => exact absurd hxx hx.1
      | cons a b => exact ⟨a, b, rfl⟩
    obtain ⟨rest, hrest⟩ := joinWords_head? x ws cx csx hxd
    have hcx : isJsSpace cx = false := by
      refine hx.2 cx ?_
      rw [hxd]
      exact List.mem_cons_self cx csx
    have hmode : splitWsCore true (joinWords (x :: ws)).data [] =
        splitWsCore false (joinWords (x :: ws)).data [] := by
      rw [hrest]
      exact splitWsCore_true_head_word cx rest hcx
    rw [hmode]
    have hfirst : String.mk ((w.data.reverse ++ []).reverse) = w := by
      rw [List.append_nil, List.reverse_reverse]
    rw [hfirst]
    exact congrArg (w :: ·) ih

/-- Collapsing Windows line endings is the identity on carriage-return
free text. -/
theorem replaceCrLf_id : ∀ l : List Char, (∀ c ∈ l, c ≠ '\r') → replaceCrLf l = l
  | [], _ => rfl
  | [c], _ => rfl
  | c :: d :: rest, h => by
    rw [replaceCrLf, if_neg (fun hcd => h c (List.mem_cons_self c _) hcd.1),
      replaceCrLf_id (d :: rest) (fun e he => h e (List.mem_cons_of_mem c he))]

/-- Tab replacement is the identity on tab-free text. -/
theorem tabsToSpaces_id : ∀ l : List Char, (∀ c ∈ l, c ≠ '\t') → tabsToSpaces l = l
  | [], _ => rfl
  | c :: rest, h => by
    show (if c = '\t' then ' ' else c) :: tabsToSpaces rest = c :: rest
    rw [if_neg (h c (List.mem_cons_self c rest)),
      tabsToSpaces_id rest (fun d hd => h d (List.mem_cons_of_mem c hd))]

/-- Control-run collapsing is the identity on control-free text, in either
mode. -/
theorem collapseControlCore_id : ∀ (b : Bool) (l : List Char),
    (∀ c ∈ l, isJsControl c = false) → collapseControlCore b l = l
  | _, [], _ => rfl
  | b, c :: rest, h => by
    rw [collapseControlCore, if_neg (by simp [h c (List.mem_cons_self c rest)]),
      collapseControlCore_id false rest (fun d hd => h d (List.mem_cons_of_mem c hd))]

/-- Per-line trailing-whitespace stripping is the identity on text with no
line terminators whose last character is not whitespace. -/
theorem stripTrailingWs_id : ∀ l : List Char,
    (∀ c ∈ l, isLineTerm c = false) →
    (∀ c, l.getLast? = some c → isJsSpace c = false) →
    stripTrailingWs l = l
  | [], _, _ => rfl
  | c :: rest, hterm, hlast => by
    cases rest with
    | nil =>
      have hc : isJsSpace c = false := hlast c (by simp)
      simp [stripTrailingWs, hc]
    | cons d rest₂ =>
      have hrec := stripTrailingWs_id (d :: rest₂)
        (fun e he => hterm e (List.mem_cons_of_mem c he))
        (fun e he => hlast e (by rw [List.getLast?_cons_cons]; exact he))
      have hd : isLineTerm d = false :=
        hterm d (List.mem_cons_of_mem c (List.mem_cons_self d rest₂))
      rw [stripTrailingWs]
      rw [hrec, if_neg (by simp [startsWithTerm, hd])]

/-- Trimming is the identity when neither end of the text is
whitespace. -/
theorem trimChars_id (l : List Char)
    (hhead : ∀ c, l.head? = some c → isJsSpace c = false)
    (hlast : ∀ c, l.getLast? = some c → isJsSpace c = false) :
    trimChars l = l := by
  unfold trimChars
  have h1 : l.dropWhile isJsSpace = l := by
    cases l with
    | nil => rfl
    | cons c rest => rw [List.dropWhile_cons, if_neg (by simp [hhead c rfl])]
  rw [h1]
  have h2 : l.reverse.dropWhile isJsSpace = l.reverse := by
    cases hrev : l.reverse with
    | nil => rfl
    | cons c rest =>
      have hc : l.getLast? = some c := by
        rw [← List.head?_reverse l, hrev]
        rfl
      rw [List.dropWhile_cons, if_neg (by simp [hlast c hc])]
  rw [h2, List.reverse_reverse]

/-- Every line terminator is whitespace. -/
theorem isLineTerm_isJsSpace (c : Char) (h : isLineTerm c = true) :
    isJsSpace c = true := by
  unfold isLineTerm at h
  unfold isJsSpace
  simp only [Bool.or_eq_true, Bool.and_eq_true, beq_iff_eq, decide_eq_true_eq] at h ⊢
  omega

/-- Carriage return and tab are control characters. -/
theorem isJsControl_cr : isJsControl '\r' = true := by decide

/-- The normalisation pipeline is the identity on the space-join of
non-empty words containing neither whitespace nor control characters. -/
theorem normalizeStr_joinWords (ws : List String) (hne : ws ≠ [])
    (h : ∀ w ∈ ws, w.data ≠ [] ∧
      ∀ c ∈ w.data, isJsSpace c = false ∧ isJsControl c = false) :
    normalizeStr (joinWords ws) = joinWords ws := by
  have hchar : ∀ c ∈ (joinWords ws).data, isJsControl c = false ∧ isLineTerm c = false := by
    intro c hc
    rcases mem_joinWords_data ws c hc with hc' | ⟨w, hw, hcw⟩
    · rw [hc']
      exact ⟨by decide, by decide⟩
    · have h' := (h w hw).2 c hcw
      refine ⟨h'.2, ?_⟩
      cases hterm : isLineTerm c
      · rfl
      · exact absurd (isLineTerm_isJsSpace c hterm) (by simp [h'.1])
  have hlast : ∀ c, (joinWords ws).data.getLast? = some c → isJsSpace c = false := by
    refine joinWords_getLast_not_space ws ?_
    intro w hw
    exact ⟨(h w hw).1, fun c hc => ((h w hw).2 c hc).1⟩
  have hhead : ∀ c, (joinWords ws).data.head? = some c → isJsSpace c = false := by
    intro c hc
    cases ws with
    | nil => exact absurd rfl hne
    | cons w ws' =>
      have hw := h w (List.mem_cons_self w ws')
      obtain ⟨cw, csw, hwd⟩ : ∃ cw csw, w.data = cw :: csw := by
        cases hww : w.data with
        | nil => exact absurd hww hw.1
        | cons a b => exact ⟨a, b, rfl⟩
      obtain ⟨rest, hrest⟩ := joinWords_head? w ws' cw csw hwd
      rw [hrest] at hc
      injection hc with hc
      rw [← hc]
      exact (hw.2 cw (by rw [hwd]; exact List.mem_cons_self cw csw)).1
  unfold normalizeStr normalizeChars
  rw [replaceCrLf_id _ (fun c hc hcr => by
    have := (hchar c hc).1
    rw [hcr] at this
    rw [isJsControl_cr] at this
    cases this)]
  rw [tabsToSpaces_id _ (fun c hc ht => by
    have := (hchar c hc).1
    rw [ht] at this
    cases this)]
  show String.mk (trimChars (stripTrailingWs (collapseControlCore false _))) = _
  rw [collapseControlCore_id false _ (fun c hc => (hchar c hc).1)]
  rw [stripTrailingWs_id _ (fun c hc => (hchar c hc).2) hlast]
  rw [trimChars_id _ hhead hlast]

/-- A packing run whose words all fit in one chunk emits exactly the
join of everything. -/
theorem chunkLoop_no_flush (cs co : ℕ) : ∀ (ws current : List String) (cl : ℕ)
    (chunks : List String), cl = sumLen current → cl + sumLen ws ≤ cs →
    current ++ ws ≠ [] →
    chunkLoop cs co ws current cl chunks = chunks ++ [joinWords (current ++ ws)]
  | [], current, cl, chunks, _, _, hne => by
    have hcur : current ≠ [] := by simpa using hne
    rw [List.append_nil, chunkLoop,
      if_pos (fun h0 => hcur (List.length_eq_zero.mp h0))]
  | w :: ws, current, cl, chunks, hcl, hle, _ => by
    rw [chunkLoop]
    dsimp only
    have hws : sumLen (w :: ws) = w.length + 1 + sumLen ws := rfl
    have hnotgt : ¬ (cl + (w.length + 1) > cs ∧ current.length > 0) := by
      intro hand
      omega
    rw [if_neg hnotgt]
    have hw1 : sumLen [w] = w.length + 1 + 0 := rfl
    have hrec := chunkLoop_no_flush cs co ws (current ++ [w]) (cl + (w.length + 1))
      chunks (by rw [sumLen_append]; omega) (by omega) (by simp)
    rw [hrec, List.append_assoc, List.singleton_append]

/-! ## Claim theorems -/

/-- C1: run of advancedRAGQuery at the failing input — one candidate
passage, initial critique one half (below the threshold of seven tenths),
improvement-attempt critique nine tenths.  The improvement attempt is
adopted as the final answer, yet the returned confidence is one half, the
initial critique score, not the maximum critique score nine tenths
observed across the attempts: the loop never writes the improved score
into bestScore, and the final assignment confidence := bestScore discards
the in-loop confidence update. -/
theorem advancedRAGQuery_confidence_ignores_improvement :
    advancedRAGQuery envStale cfgStale "q" [{ chunkText := some "D" }] 5 =
      .ok { result := { query := "q", expandedQueries := ["q"], documents := ["D"],
                        rerankedDocuments := [{ text := "D", relevanceScore := 1 }],
                        finalAnswer := "ansB", critiqueScore := 1/2, confidence := 1/2 },
            genCalls := 4, attempts := 1 } ∧
    (critiqueResponse envStale "q" "ansB" (some ["D"]) 3).1.score = 9/10 ∧
    ((1 : ℚ)/2 < 9/10) := by
  refine ⟨?_, ?_, ?_⟩
  · with_unfolding_all rfl
  · with_unfolding_all rfl
  · with_unfolding_all decide

/-- C2 counterexample: with the default configuration (query expansion
enabled) and an empty candidate-passage list, advancedRAGQuery returns
the fixed insufficient-information result but makes one generation call
(the query-expansion call issued before the empty check), not zero. -/
theorem advancedRAGQuery_empty_calls_expansion :
    advancedRAGQuery envEmpty defaultAdvancedRAGConfig "q" [] 5 =
      .ok { result := { query := "q", expandedQueries := ["q"], documents := [],
                        rerankedDocuments := [], finalAnswer := insufficientAnswer,
                        critiqueScore := 0, confidence := 0 },
            genCalls := 1, attempts := 0 } ∧
    (1 : ℕ) ≠ 0 := by
  refine ⟨?_, ?_⟩
  · with_unfolding_all rfl
  · decide

/-- C2 as amended: whenever the candidate-passage list yields zero
non-empty extracted texts, advancedRAGQuery returns the fixed
insufficient-information answer with critiqueScore zero and confidence
zero, and the only generation call of the whole invocation is the
query-expansion call, made exactly when query expansion is enabled — so
the count is one with expansion enabled and zero with it disabled, not
zero unconditionally. -/
theorem advancedRAGQuery_empty_retrieval (env : GenEnv) (cfg : AdvancedRAGConfig)
    (query : String) (rs : List VectorSearchResult) (topK : ℕ) (tr : RunTrace)
    (hdocs : extractDocs rs = [])
    (hrun : advancedRAGQuery env cfg query rs topK = .ok tr) :
    tr.result.finalAnswer = insufficientAnswer ∧ tr.result.critiqueScore = 0 ∧
    tr.result.confidence = 0 ∧ tr.result.expandedQueries = [query] ∧
    tr.genCalls = (if cfg.queryExpansion.enabled then 1 else 0) := by
  unfold advancedRAGQuery at hrun
  cases hg : generateExpandedQueries env cfg query cfg.queryExpansion.numExpandedQueries 0 with
  | error e => rw [hg] at hrun; cases hrun
  | ok p =>
    obtain ⟨l, c⟩ := p
    rw [hg] at hrun
    dsimp only at hrun
    rw [hdocs] at hrun
    rw [if_pos (show (([] : List String)).length = 0 from rfl)] at hrun
    injection hrun with h'
    rw [← h']
    refine ⟨rfl, rfl, rfl, rfl, ?_⟩
    simpa using generateExpandedQueries_calls env cfg query _ 0 l c hg

/-- Witness for C2 as amended: a passage list whose single entry extracts
to the empty text, with query expansion disabled, yields the terminal
result with zero generation calls. -/
theorem advancedRAGQuery_empty_retrieval_witness :
    emptyTraceOff.result.finalAnswer = insufficientAnswer ∧
    emptyTraceOff.result.critiqueScore = 0 ∧ emptyTraceOff.result.confidence = 0 ∧
    emptyTraceOff.result.expandedQueries = ["q"] ∧
    emptyTraceOff.genCalls = (if cfgStale.queryExpansion.enabled then 1 else 0) :=
  advancedRAGQuery_empty_retrieval envEmpty cfgStale "q" [{ chunkText := some "" }] 5
    emptyTraceOff rfl (by with_unfolding_all rfl)

/-- C4: whenever the candidate passages yield at least one non-empty
text and every critique the oracle can produce scores below the
threshold, a successful run of advancedRAGQuery performs exactly
maxImprovementAttempts improvement-loop iterations (the loop then
terminates), each iteration being one candidate synthesis plus one
candidate critique — the filtered passage set is always non-empty because
the first positional score is one — for a total generation-call count of
the expansion calls plus two initial calls plus two per attempt. -/
theorem advancedRAGQuery_bounded_attempts (env : GenEnv) (cfg : AdvancedRAGConfig)
    (query : String) (rs : List VectorSearchResult) (topK : ℕ) (tr : RunTrace)
    (hdocs : extractDocs rs ≠ [])
    (hstub : ∀ (q r : String) (ctx : Option (List String)) (calls : ℕ),
      (critiqueResponse env q r ctx calls).1.score < cfg.selfCritique.threshold)
    (hrun : advancedRAGQuery env cfg query rs topK = .ok tr) :
    tr.attempts = cfg.selfCritique.maxImprovementAttempts ∧
    tr.genCalls = (if cfg.queryExpansion.enabled then 1 else 0) + 2 +
      2 * cfg.selfCritique.maxImprovementAttempts := by
  unfold advancedRAGQuery at hrun
  cases hg : generateExpandedQueries env cfg query cfg.queryExpansion.numExpandedQueries 0 with
  | error e => rw [hg] at hrun; cases hrun
  | ok p =>
    obtain ⟨l, c₀⟩ := p
    rw [hg] at hrun
    dsimp only at hrun
    rw [if_neg (fun hh => hdocs (List.length_eq_zero.mp hh))] at hrun
    rw [rerankDocuments_eq_scores] at hrun
    cases hs : synthesizeAnswer env cfg query
        ((rerankScores 0 (extractDocs rs)).map (fun d => d.text)) 1 c₀ with
    | error e => rw [hs] at hrun; cases hrun
    | ok p₁ =>
      obtain ⟨a₀, c₁⟩ := p₁
      rw [hs] at hrun
      dsimp only at hrun
      rcases hcr : critiqueResponse env query a₀
          (some ((rerankScores 0 (extractDocs rs)).map (fun d => d.text))) c₁
        with ⟨cr, c₂⟩
      rw [hcr] at hrun
      dsimp only at hrun
      have hcrlt : cr.score < cfg.selfCritique.threshold := by
        have hh := hstub query a₀
          (some ((rerankScores 0 (extractDocs rs)).map (fun d => d.text))) c₁
        rw [hcr] at hh
        exact hh
      rw [if_pos hcrlt] at hrun
      cases him : improveLoop env cfg query (rerankScores 0 (extractDocs rs))
          cfg.selfCritique.maxImprovementAttempts
          ⟨0, a₀, cr.score, cr.score, c₂⟩ with
      | error e => rw [him] at hrun; cases hrun
      | ok st =>
        rw [him] at hrun
        injection hrun with h'
        rw [← h']
        obtain ⟨h₁, h₂, h₃⟩ := improveLoop_stub env cfg query
          (rerankScores 0 (extractDocs rs))
          (rerank_filter_texts_ne_nil (extractDocs rs) hdocs) hstub
          cfg.selfCritique.maxImprovementAttempts
          ⟨0, a₀, cr.score, cr.score, c₂⟩ st hcrlt him
        dsimp only at h₁ h₂ h₃
        have hc₁ : c₁ = c₀ + 1 :=
          synthesizeAnswer_calls env cfg query _ 1 c₀ a₀ c₁ hs
        have hc₂ : c₂ = c₁ + 1 := by
          have hh := critiqueResponse_calls env query a₀
            (some ((rerankScores 0 (extractDocs rs)).map (fun d => d.text))) c₁
          rw [hcr] at hh
          exact hh
        have hc₀ : c₀ = 0 + (if cfg.queryExpansion.enabled then 1 else 0) :=
          generateExpandedQueries_calls env cfg query _ 0 l c₀ hg
        have hite : (if cfg.queryExpansion.enabled then 1 else 0) = c₀ := by
          rw [hc₀]
          exact (Nat.zero_add _).symm
        refine ⟨by dsimp only; omega, ?_⟩
        dsimp only
        rw [hite]
        omega

/-- Witness for C4: the critique-stub oracle with the default
configuration (threshold seven tenths, two improvement attempts, query
expansion enabled) on one passage: two improvement iterations and seven
generation calls in total. -/
theorem advancedRAGQuery_bounded_attempts_witness :
    advancedRAGQuery envStub defaultAdvancedRAGConfig "q" [{ chunkText := some "D" }] 5 =
      .ok stubTrace ∧
    stubTrace.attempts = defaultAdvancedRAGConfig.selfCritique.maxImprovementAttempts ∧
    stubTrace.genCalls =
      (if defaultAdvancedRAGConfig.queryExpansion.enabled then 1 else 0) + 2 +
        2 * defaultAdvancedRAGConfig.selfCritique.maxImprovementAttempts := by
  refine ⟨by with_unfolding_all rfl, ?_, ?_⟩
  · exact (advancedRAGQuery_bounded_attempts envStub defaultAdvancedRAGConfig "q"
      [{ chunkText := some "D" }] 5 stubTrace (by decide)
      (fun q r ctx calls => by show (1 : ℚ)/2 < 7/10; with_unfolding_all decide)
      (by with_unfolding_all rfl)).1
  · exact (advancedRAGQuery_bounded_attempts envStub defaultAdvancedRAGConfig "q"
      [{ chunkText := some "D" }] 5 stubTrace (by decide)
      (fun q r ctx calls => by show (1 : ℚ)/2 < 7/10; with_unfolding_all decide)
      (by with_unfolding_all rfl)).2

/-- C3: for every query, answer and context, when the generation call
fails or the generation response is not parseable JSON, critiqueResponse
returns score one half and details holding the entry error mapped to
"Failed to parse critique"; the failure is never propagated — the
embedding of critiqueResponse is a total function into its result type,
the try-catch of the source. -/
theorem critiqueResponse_fallback_on_failure (env : GenEnv) (query response : String)
    (context : Option (List String)) (calls : ℕ)
    (h : ∀ t, env.gen calls (.critique query response context) = .ok t →
      env.parse (jsTrim t) = none) :
    critiqueResponse env query response context calls =
      ({ score := 1/2, details := [("error", JVal.str "Failed to parse critique")] },
        calls + 1) := by
  unfold critiqueResponse
  cases hg : env.gen calls (.critique query response context) with
  | error e => rfl
  | ok t =>
    dsimp only
    rw [h t hg]
    rfl

/-- Witness for C3 at a concrete oracle whose generation succeeds with
text that does not parse as JSON. -/
theorem critiqueResponse_fallback_on_failure_witness :
    critiqueResponse envBad "q" "an answer" none 0 =
      ({ score := 1/2, details := [("error", JVal.str "Failed to parse critique")] }, 1) :=
  critiqueResponse_fallback_on_failure envBad "q" "an answer" none 0 (fun _ _ => rfl)

/-- C5: whenever query expansion is disabled or the generation call
succeeds (with arbitrary response text), generateExpandedQueries returns a
list whose head is exactly the input query and whose tail, the generated
expansions, has length at most the requested number. -/
theorem generateExpandedQueries_shape (env : GenEnv) (cfg : AdvancedRAGConfig)
    (q : String) (n calls : ℕ)
    (h : cfg.queryExpansion.enabled = false ∨
      ∃ t, env.gen calls (.expansion q n) = .ok t) :
    ∃ rest c, generateExpandedQueries env cfg q n calls = .ok (q :: rest, c) ∧
      rest.length ≤ n := by
  unfold generateExpandedQueries
  by_cases he : cfg.queryExpansion.enabled = false
  · rw [if_pos he]
    exact ⟨[], calls, rfl, Nat.zero_le n⟩
  · rw [if_neg he]
    rcases h with h | ⟨t, ht⟩
    · exact absurd h he
    · rw [ht]
      exact ⟨_, _, rfl, List.length_take_le n _⟩

/-- Witness for C5 at a concrete oracle returning three expansion lines. -/
theorem generateExpandedQueries_shape_witness :
    ∃ rest c,
      generateExpandedQueries envStub defaultAdvancedRAGConfig "q" 3 0 =
        .ok ("q" :: rest, c) ∧ rest.length ≤ 3 :=
  generateExpandedQueries_shape envStub defaultAdvancedRAGConfig "q" 3 0
    (.inr ⟨"e1\ne2\ne3", rfl⟩)

/-- C6 counterexample: with ranking disabled and twelve input passages
the returned scores are not truncated at zero — the twelfth score is
minus one tenth, strictly below zero. -/
theorem rerankDocuments_score_below_zero :
    (rerankDocuments cfgRerankOff "q" docsTwelve 5).map (fun d => d.relevanceScore) =
      [1, 9/10, 4/5, 7/10, 3/5, 1/2, 2/5, 3/10, 1/5, 1/10, 0, -1/10] ∧
    ((-1 : ℚ)/10 < 0) := by
  constructor
  · with_unfolding_all rfl
  · with_unfolding_all decide

/-- C6 as amended: with ranking disabled, rerankDocuments returns one
scored entry per input passage, in input order, with score exactly one
minus a tenth of the zero-based index — with no truncation at zero, so
entries from index eleven on carry negative scores. -/
theorem rerankDocuments_disabled_scores (cfg : AdvancedRAGConfig) (query : String)
    (documents : List String) (topN : ℕ) (h : cfg.reranking.enabled = false)
    (i : ℕ) (hi : i < documents.length) :
    (rerankDocuments cfg query documents topN).length = documents.length ∧
    (rerankDocuments cfg query documents topN)[i]? =
      some { text := documents[i], relevanceScore := 1 - (i : ℚ) * (1/10) } := by
  rw [rerankDocuments_eq_scores]
  refine ⟨rerankScores_length documents 0, ?_⟩
  rw [rerankScores_getElem? documents 0 i, List.getElem?_eq_getElem hi]
  simp

/-- Witness for C6 at two concrete passages. -/
theorem rerankDocuments_disabled_scores_witness :
    (rerankDocuments cfgRerankOff "q" ["a", "b"] 5).length = 2 ∧
    (rerankDocuments cfgRerankOff "q" ["a", "b"] 5)[1]? =
      some { text := "b", relevanceScore := 1 - (1 : ℚ) * (1/10) } := by
  have h := rerankDocuments_disabled_scores cfgRerankOff "q" ["a", "b"] 5 rfl 1
    (by decide)
  simpa using h

/-- C10: the reranking-enabled branch and the reranking-disabled branch of
rerankDocuments agree for every configuration pair, query pair and topN
pair, and both refine the specification-side reranker: one entry per
input document, in input order, text unchanged, score one minus a tenth of
the index; the output never depends on the query or on topN and is never
truncated to topN. -/
theorem rerankDocuments_branch_equivalence (cfg cfg' : AdvancedRAGConfig)
    (query query' : String) (documents : List String) (topN topN' : ℕ) :
    rerankDocuments cfg query documents topN =
      rerankDocuments cfg' query' documents topN' ∧
    rerankDocuments cfg query documents topN = rerankSpec documents ∧
    (rerankDocuments cfg query documents topN).length = documents.length := by
  rw [rerankDocuments_eq_scores, rerankDocuments_eq_scores]
  exact ⟨rfl, rerankScores_eq_spec documents, rerankScores_length documents 0⟩

/-- C8 counterexample: with chunkSize ten and chunkOverlap two hundred,
the input of six two-character words produces a final chunk of length
seventeen containing all six words — not a single oversized word — which
exceeds the chunk size by seven, more than one word's length: the overlap
reseeding keeps up to thirty-three words of the closed chunk, so chunks
keep growing past the size bound. -/
theorem chunkText_overlap_exceeds_bound :
    chunkText "aa bb cc dd ee ff" 10 200 =
      ["aa bb cc", "aa bb cc dd", "aa bb cc dd ee", "aa bb cc dd ee ff"] ∧
    ("aa bb cc dd ee ff" : String).length = 10 + 7 ∧
    (∀ w ∈ splitWs (normalizeStr "aa bb cc dd ee ff"), w.length = 2) ∧
    2 < 7 := by
  refine ⟨by decide, by decide, by decide, by decide⟩

/-- C8 as amended: with chunkOverlap zero, every chunk produced by
chunkText either fits within chunkSize outright or is a single
(possibly oversized) word of the normalised input — so no multi-word
chunk exceeds chunkSize at all; with a positive overlap the original
bound of chunkSize plus one word's length can be exceeded without limit. -/
theorem chunkText_zero_overlap_size_bound (text : String) (chunkSize : ℕ)
    (c : String) (hc : c ∈ chunkText text chunkSize 0) :
    c.length ≤ chunkSize ∨ c ∈ splitWs (normalizeStr text) := by
  refine chunkLoop_zero_overlap_bound chunkSize (splitWs (normalizeStr text))
    (splitWs (normalizeStr text)) [] 0 [] ?_ ?_ ?_ ?_ rfl c hc
  · intro c hc
    cases hc
  · intro w hw
    exact hw
  · intro w hw
    cases hw
  · exact .inr (Nat.zero_le _)

/-- Witness for C8 as amended at a concrete two-word input chunked with
size five and no overlap. -/
theorem chunkText_zero_overlap_size_bound_witness :
    ("hello" ∈ chunkText "hello world" 5 0) ∧
    (("hello" : String).length ≤ 5 ∨ "hello" ∈ splitWs (normalizeStr "hello world")) :=
  ⟨by decide, chunkText_zero_overlap_size_bound "hello world" 5 "hello" (by decide)⟩

/-- C9 counterexample: two strings of length at most the chunk size that
chunkText does not return as a one-element sequence of themselves — one is
rewritten by normalisation (the double space collapses to one when the
words are re-joined) and one of length exactly chunkSize is split in two
because the packing accumulator counts each word's length plus one. -/
theorem chunkText_rechunk_counterexample :
    (("a  b" : String).length ≤ 1200 ∧ chunkText "a  b" 1200 200 ≠ ["a  b"]) ∧
    (("a b" : String).length ≤ 3 ∧ chunkText "a b" 3 0 ≠ ["a b"]) := by
  refine ⟨⟨by decide, by decide⟩, ⟨by decide, by decide⟩⟩

/-- C9 as amended: chunking is the identity on a single already-minimal
chunk in normal form — a string that is the single-space join of
non-empty words free of whitespace and control characters — provided its
length is strictly below chunkSize; for every chunkOverlap, chunkText
returns exactly that one chunk.  (Strings altered by normalisation, and
normal strings of length exactly chunkSize with at least two words, are
not returned verbatim, per the counterexample.) -/
theorem chunkText_single_chunk_roundtrip (ws : List String)
    (chunkSize chunkOverlap : ℕ) (hne : ws ≠ [])
    (hw : ∀ w ∈ ws, w.data ≠ [] ∧
      ∀ c ∈ w.data, isJsSpace c = false ∧ isJsControl c = false)
    (hlen : (joinWords ws).length < chunkSize) :
    chunkText (joinWords ws) chunkSize chunkOverlap = [joinWords ws] := by
  show chunkLoop chunkSize chunkOverlap (splitWs (normalizeStr (joinWords ws)))
    [] 0 [] = [joinWords ws]
  rw [normalizeStr_joinWords ws hne hw,
    splitWs_joinWords ws hne
      (fun w hwm => ⟨(hw w hwm).1, fun c hc => ((hw w hwm).2 c hc).1⟩)]
  have hsum : sumLen ws = (joinWords ws).length + 1 := (joinWords_length ws hne).symm
  rw [chunkLoop_no_flush chunkSize chunkOverlap ws [] 0 [] rfl (by omega)
    (by simpa using hne), List.nil_append, List.nil_append]

/-- Witness for C9 as amended: the normal two-word string of length five
is returned unchanged when chunked with size six and overlap three. -/
theorem chunkText_single_chunk_roundtrip_witness :
    chunkText (joinWords ["ab", "cd"]) 6 3 = [joinWords ["ab", "cd"]] :=
  chunkText_single_chunk_roundtrip ["ab", "cd"] 6 3 (by decide) (by decide) (by decide)

/-- C7 counterexample: on empty input, chunkText returns the one-element
list holding the empty string, not the empty list. -/
theorem chunkText_empty_not_nil :
    chunkText "" 1200 200 = [""] ∧ chunkText "" 1200 200 ≠ [] := by
  decide

/-- C7 as amended: for every input that normalises to the empty string
(in particular the empty string itself), chunkText returns the one-element
list holding the empty string, for every chunk size and overlap. -/
theorem chunkText_of_normalized_empty (text : String) (chunkSize chunkOverlap : ℕ)
    (h : normalizeStr text = "") :
    chunkText text chunkSize chunkOverlap = [""] := by
  unfold chunkText
  rw [h]
  show chunkLoop chunkSize chunkOverlap [""] [] 0 [] = [""]
  unfold chunkLoop
  rw [if_neg (by simp)]
  rfl

/-- Witness for C7 at whitespace-only input, whose normalisation is
empty. -/
theorem chunkText_of_normalized_empty_witness :
    normalizeStr " \t " = "" ∧ chunkText " \t " 7 3 = [""] :=
  ⟨rfl, chunkText_of_normalized_empty " \t " 7 3 rfl⟩

end Cogno
